import Mathlib

/-!
Verification development for the parts-storage drawer-OCR pipeline
(src/tools/drawer-ocr/detect_drawers.py, with the marker-placement
convention documented in src/tools/label-generator/generate_label.py).

The Python code is shallowly embedded: pixel coordinates and areas become
rational numbers, the external services (layout catalog, image decoding,
ArUco detection passes, the Ollama text-extraction call) become explicit
oracle inputs, and Python dictionaries become association lists with
Python's insertion-order/replace-in-place semantics.  Side effects
(printing, writing debug images) are outside the embedding; everything
the downstream logic consumes is modelled.
-/

namespace DrawerOCR

/-- A 2D point in pixel coordinates (floats in the source, rationals here). -/
abbrev Pt : Type := ℚ × ℚ

/-- One detected ArUco marker: its four corners in the order OpenCV returns
them, `c0` = top-left, `c1` = top-right, `c2` = bottom-right,
`c3` = bottom-left (detect_drawers.py lines 200-202). -/
structure Marker where
  c0 : Pt
  c1 : Pt
  c2 : Pt
  c3 : Pt
deriving DecidableEq

/-- Marker ID for the top-left case corner (module constant MARKER_ID_TL). -/
def MARKER_ID_TL : ℕ := 1

/-- Marker ID for the bottom-right case corner (MARKER_ID_BR). -/
def MARKER_ID_BR : ℕ := 2

/-- Marker ID for the top-right case corner (MARKER_ID_TR). -/
def MARKER_ID_TR : ℕ := 3

/-- Marker ID for the bottom-left case corner (MARKER_ID_BL). -/
def MARKER_ID_BL : ℕ := 4

/-- A complete Corner Set: the four logical case corners. -/
structure Corners where
  tl : Pt
  tr : Pt
  bl : Pt
  br : Pt
deriving DecidableEq

/-- The running `found_corners` dictionary of find_aruco_markers, where each
logical corner may or may not have been found yet. -/
structure FoundCorners where
  tl : Option Pt
  tr : Option Pt
  bl : Option Pt
  br : Option Pt
deriving DecidableEq

/-- Scale both coordinates of every corner of a marker (used to map the
1.5x-upscaled pass-4 detections back to original image coordinates:
`corners4[i] / scale`). -/
def scaleMarker (k : ℚ) (m : Marker) : Marker :=
  ⟨(k * m.c0.1, k * m.c0.2), (k * m.c1.1, k * m.c1.2),
   (k * m.c2.1, k * m.c2.2), (k * m.c3.1, k * m.c3.2)⟩

/-- Merge one later detection pass into the running (id, marker) list:
a detection whose id is already present is skipped, otherwise it is
appended (detect_drawers.py lines 151-181, the `if mid not in all_ids`
guard of passes 2-4). -/
def mergeDetections (acc dets : List (ℕ × Marker)) : List (ℕ × Marker) :=
  dets.foldl (fun a d => if d.1 ∈ a.map Prod.fst then a else a ++ [d]) acc

/-- One step of the corner-extraction loop (lines 199-219): marker id 1
contributes its own bottom-right corner as the case top-left, id 3 its
bottom-left corner as the case top-right, id 4 its top-right corner as the
case bottom-left, id 2 its top-left corner as the case bottom-right. -/
def cornerStep (fc : FoundCorners) (d : ℕ × Marker) : FoundCorners :=
  if d.1 = MARKER_ID_TL then { fc with tl := some d.2.c2 }
  else if d.1 = MARKER_ID_TR then { fc with tr := some d.2.c3 }
  else if d.1 = MARKER_ID_BL then { fc with bl := some d.2.c1 }
  else if d.1 = MARKER_ID_BR then { fc with br := some d.2.c0 }
  else fc

/-- find_aruco_markers.  The four detector invocations (raw image, CLAHE
contrast-equalized, sharpened, 1.5x upscaled) are oracle inputs `p1..p4`;
pass 1 is taken wholesale, passes 2-4 are merged without overwriting an
id already present, and pass-4 corners are divided by the 1.5 scale
factor (scaling a skipped detection is harmless, so the division is
applied up front).  Returns the Corner Set, or none when no marker at
all was detected or one of the four required identities is missing. -/
def find_aruco_markers (p1 p2 p3 p4 : List (ℕ × Marker)) : Option Corners :=
  let all :=
    mergeDetections
      (mergeDetections (mergeDetections p1 p2) p3)
      (p4.map (fun d => (d.1, scaleMarker (2 / 3) d.2)))
  if all.isEmpty then none
  else
    let fc := all.foldl cornerStep ⟨none, none, none, none⟩
    match fc.tl, fc.tr, fc.bl, fc.br with
    | some tl, some tr, some bl, some br => some ⟨tl, tr, bl, br⟩
    | _, _, _, _ => none

/-- Squared Euclidean distance between two points.  The source computes
`np.linalg.norm(p - q)`; we carry the square so everything stays in ℚ. -/
def sqDist (p q : Pt) : ℚ :=
  (p.1 - q.1) ^ 2 + (p.2 - q.2) ^ 2

/-- Python's `int(...)` applied to the (nonnegative) Euclidean norm, i.e.
the floor of the square root of the squared length.  For x ≥ 0,
floor (sqrt x) = Nat.sqrt ⌊x⌋, because for a natural n we have
n^2 ≤ x iff n^2 ≤ ⌊x⌋ and x < (n+1)^2 iff ⌊x⌋ < (n+1)^2; this keeps the
definition executable over ℚ. -/
def floorSqrt (x : ℚ) : ℕ :=
  Nat.sqrt (Int.toNat ⌊x⌋)

/-- The output-size computation of perspective_transform (lines 254-265):
when no explicit size is given, width is `int(max(top edge, bottom edge))`
and height is `int(max(left edge, right edge))`, max of norms being the
square root of the max of the squared lengths. -/
def perspSize (c : Corners) (output_size : Option (ℕ × ℕ)) : ℕ × ℕ :=
  match output_size with
  | some wh => wh
  | none =>
    (floorSqrt (max (sqDist c.tr c.tl) (sqDist c.br c.bl)),
     floorSqrt (max (sqDist c.bl c.tl) (sqDist c.br c.tr)))

/-- The rectified case bounds `(left, top, right, bottom)`. -/
structure CaseBounds where
  left : ℚ
  top : ℚ
  right : ℚ
  bottom : ℚ
deriving DecidableEq

/-- perspective_transform's returned `case_bounds` (lines 254-286): the
warp itself is raster resampling outside the embedding; the data the rest
of the pipeline consumes is the bounds tuple `(0, 0, width, height)`. -/
def perspective_transform (c : Corners) (output_size : Option (ℕ × ℕ)) :
    CaseBounds :=
  ⟨0, 0, ((perspSize c output_size).1 : ℚ), ((perspSize c output_size).2 : ℚ)⟩

/-- A connected component of the white mask: bounding box from
cv2.boundingRect plus cv2.contourArea.  The mask/morphology stages are
raster processing; the component list is the oracle input. -/
structure Component where
  x : ℚ
  y : ℚ
  w : ℚ
  h : ℚ
  area : ℚ
deriving DecidableEq

/-- A Region Candidate as stored by find_white_labels: bounding box,
center, area (lines 327-335). -/
structure LabelInfo where
  x : ℚ
  y : ℚ
  w : ℚ
  h : ℚ
  cx : ℚ
  cy : ℚ
  area : ℚ
deriving DecidableEq

/-- Build the label record for a kept component (`cx = x + w/2`,
`cy = y + h/2`). -/
def mkLabel (c : Component) : LabelInfo :=
  ⟨c.x, c.y, c.w, c.h, c.x + c.w / 2, c.y + c.h / 2, c.area⟩

/-- The filter of find_white_labels (lines 325-326):
`w > 100 and h > 20 and h < 150 and w/h > 2 and area > 3000
 and y > 50 and y < height - 100`. -/
def keepComponent (height : ℚ) (c : Component) : Bool :=
  (100 < c.w) && (20 < c.h) && (c.h < 150) && (2 < c.w / c.h)
    && (3000 < c.area) && (50 < c.y) && (c.y < height - 100)

/-- The sort key order of `labels.sort(key=lambda l: (l['y'], l['x']))`:
lexicographic on (y, x). -/
def labelLe (a b : LabelInfo) : Prop :=
  a.y < b.y ∨ (a.y = b.y ∧ a.x ≤ b.x)

instance : DecidableRel labelLe := fun a b =>
  inferInstanceAs (Decidable (a.y < b.y ∨ (a.y = b.y ∧ a.x ≤ b.x)))

/-- find_white_labels (lines 289-341): keep the components passing the
filter, record box/center/area, sort by (y, x).  Python's sort is stable;
insertion sort with the reflexive key order is stable as well. -/
def find_white_labels (height : ℚ) (comps : List Component) :
    List LabelInfo :=
  List.insertionSort labelLe ((comps.filter (keepComponent height)).map mkLabel)

/-- A drawer size class fetched from the catalog: name and width/height in
grid units. -/
structure DrawerSize where
  name : String
  widthUnits : ℕ
  heightUnits : ℕ
deriving DecidableEq

/-- A Cell Definition of a layout template: 1-indexed (row, col) plus the
size-class name (the `layoutData` entries). -/
structure CellDef where
  row : ℕ
  col : ℕ
  size : String
deriving DecidableEq

/-- A layout template: name, grid dimensions, sparse cell list. -/
structure Layout where
  name : String
  columns : ℕ
  rows : ℕ
  layoutData : List CellDef
deriving DecidableEq

/-- A logical grid position (row, col), 1-indexed. -/
abbrev Pos : Type := ℕ × ℕ

/-- Lookup in an association list modelling a Python dict (keys are unique
because insertion replaces in place). -/
def dictGet {α β : Type} [DecidableEq α] : List (α × β) → α → Option β
  | [], _ => none
  | (k, v) :: t, a => if k = a then some v else dictGet t a

/-- Python dict assignment `d[k] = v`: replace the binding in place when
the key exists (keeping its insertion position), otherwise append. -/
def dictInsert {α β : Type} [DecidableEq α] :
    List (α × β) → α → β → List (α × β)
  | [], a, b => [(a, b)]
  | (k, v) :: t, a, b =>
    if k = a then (a, b) :: t else (k, v) :: dictInsert t a b

/-- Lookup size_map.get(name), where size_map is the dict comprehension
`{size['name']: size for size in drawer_sizes}`: the last entry with a
given name wins. -/
def sizeMapGet (sizes : List DrawerSize) (n : String) : Option DrawerSize :=
  sizes.foldl (fun acc s => if s.name = n then some s else acc) none

/-- One drawer's pixel boundary record (lines 400-409). -/
structure DrawerBounds where
  left : ℚ
  top : ℚ
  right : ℚ
  bottom : ℚ
  width : ℚ
  height : ℚ
  center_x : ℚ
  center_y : ℚ
deriving DecidableEq

/-- Boundary of the drawer at 1-indexed (row, col) spanning wu x hu grid
units, with uw/uh the per-unit pixel size (lines 393-409). -/
def mkBoundary (cb : CaseBounds) (uw uh : ℚ) (row col : ℕ) (wu hu : ℕ) :
    DrawerBounds :=
  let left := cb.left + ((col : ℚ) - 1) * uw
  let top := cb.top + ((row : ℚ) - 1) * uh
  let right := left + (wu : ℚ) * uw
  let bottom := top + (hu : ℚ) * uh
  ⟨left, top, right, bottom, right - left, bottom - top,
   (left + right) / 2, (top + bottom) / 2⟩

/-- The per-unit cell width `grid_width / grid_cols` (line 367). -/
def unitWidth (cb : CaseBounds) (layout : Layout) : ℚ :=
  (cb.right - cb.left) / (layout.columns : ℚ)

/-- The per-unit cell height `grid_height / grid_rows` (line 368). -/
def unitHeight (cb : CaseBounds) (layout : Layout) : ℚ :=
  (cb.bottom - cb.top) / (layout.rows : ℚ)

/-- One step of the drawer_boundaries construction: skip the cell when
its size name is unknown, otherwise store its boundary under (row, col). -/
def boundStep (cb : CaseBounds) (uw uh : ℚ) (sizes : List DrawerSize)
    (acc : List (Pos × DrawerBounds)) (d : CellDef) :
    List (Pos × DrawerBounds) :=
  match sizeMapGet sizes d.size with
  | none => acc
  | some s =>
    dictInsert acc (d.row, d.col)
      (mkBoundary cb uw uh d.row d.col s.widthUnits s.heightUnits)

/-- The drawer_boundaries dict built over layout_data (lines 374-411). -/
def buildBoundaries (cb : CaseBounds) (layout : Layout)
    (sizes : List DrawerSize) : List (Pos × DrawerBounds) :=
  layout.layoutData.foldl
    (boundStep cb (unitWidth cb layout) (unitHeight cb layout) sizes) []

/-- Squared distance from a label center to a drawer-boundary center
(`dx*dx + dy*dy`, line 429). -/
def centerDist2 (cx cy : ℚ) (b : DrawerBounds) : ℚ :=
  (cx - b.center_x) * (cx - b.center_x)
    + (cy - b.center_y) * (cy - b.center_y)

/-- One step of the nearest-drawer scan (lines 422-433): state is
(best_position, min_distance), min_distance starting at infinity (none);
a strictly smaller squared distance replaces the current best. -/
def bestStep (cx cy : ℚ) (acc : Option Pos × Option ℚ)
    (pb : Pos × DrawerBounds) : Option Pos × Option ℚ :=
  match acc.2 with
  | none => (some pb.1, some (centerDist2 cx cy pb.2))
  | some m =>
    if centerDist2 cx cy pb.2 < m then (some pb.1, some (centerDist2 cx cy pb.2))
    else acc

/-- The position whose boundary center is nearest (squared Euclidean
distance, strict improvement, first entry wins ties). -/
def best_position (cx cy : ℚ) (bs : List (Pos × DrawerBounds)) :
    Option Pos :=
  (bs.foldl (bestStep cx cy) (none, none)).1

/-- The acceptance test (lines 439-443): the label center must lie within
the drawer bounds expanded on every side by 30% of the larger cell
dimension. -/
def withinMargin (b : DrawerBounds) (cx cy : ℚ) : Bool :=
  let margin := max b.width b.height * (3 / 10)
  (b.left - margin ≤ cx) && (cx ≤ b.right + margin)
    && (b.top - margin ≤ cy) && (cy ≤ b.bottom + margin)

/-- Processing of one label in the assignment loop (lines 416-449): find
the nearest drawer, re-look it up in the boundary dict, require the
margin test, then keep the larger-area label per position (a strict
comparison, so an equal-area later label does not replace the earlier
one).  best_position always returns a key of `bs`, so the inner none
branch is unreachable (Python's `drawer_boundaries[best_position]`
cannot raise there). -/
def assignStep (bs : List (Pos × DrawerBounds))
    (gl : List (Pos × LabelInfo)) (l : LabelInfo) :
    List (Pos × LabelInfo) :=
  match best_position l.cx l.cy bs with
  | none => gl
  | some pos =>
    match dictGet bs pos with
    | none => gl
    | some b =>
      if withinMargin b l.cx l.cy then
        match dictGet gl pos with
        | none => dictInsert gl pos l
        | some prev =>
          if prev.area < l.area then dictInsert gl pos l else gl
      else gl

/-- The grid_info record returned alongside the assignment (451-461). -/
structure GridInfo where
  left : ℚ
  top : ℚ
  right : ℚ
  bottom : ℚ
  unit_width : ℚ
  unit_height : ℚ
  columns : ℕ
  rows : ℕ
  drawer_boundaries : List (Pos × DrawerBounds)
deriving DecidableEq

/-- assign_labels_to_grid (lines 344-463).  An empty candidate list
returns `({}, None)` before drawer_sizes is ever touched; otherwise, when
the drawer-size fetch failed (drawer_sizes is None), the size-map dict
comprehension iterates None and raises TypeError, modelled as
`Except.error`. -/
def assign_labels_to_grid (labels : List LabelInfo) (cb : CaseBounds)
    (layout : Layout) (drawer_sizes : Option (List DrawerSize)) :
    Except Unit (List (Pos × LabelInfo) × Option GridInfo) :=
  if labels.isEmpty then .ok ([], none)
  else
    match drawer_sizes with
    | none => .error ()
    | some sizes =>
      let bs := buildBoundaries cb layout sizes
      .ok (labels.foldl (assignStep bs) [],
        some ⟨cb.left, cb.top, cb.right, cb.bottom,
          unitWidth cb layout, unitHeight cb layout,
          layout.columns, layout.rows, bs⟩)

/-- The cell-boundary rectangles save_debug_image draws (lines 549-562):
nothing when grid_info is None, otherwise one rectangle per entry of
drawer_boundaries. -/
def debugBoundaryRects (gi : Option GridInfo) : List (Pos × DrawerBounds) :=
  match gi with
  | none => []
  | some g => g.drawer_boundaries

/-- Outcome of one Ollama text-extraction request: failure covers a
transport error, timeout or non-2xx status (everything the bare `except`
of lines 496-513 catches); success carries the optional "response" field
of the JSON body. -/
inductive OcrOutcome where
  | failure
  | success (body : Option String)

/-- The text extract_and_ocr_label returns (lines 495-513): empty string
on any failure, otherwise `result.get("response", "").strip()`.  The
crop/persist side effects of lines 470-483 are raster I/O outside the
embedding. -/
def extract_and_ocr_label (resp : OcrOutcome) : String :=
  match resp with
  | .failure => ""
  | .success b => (b.getD "").trim

/-- A Result Record of the ocr_results.json artifact. -/
structure ResultRecord where
  row : ℕ
  col : ℕ
  text : String
deriving DecidableEq

/-- The OCR loop of main (lines 727-745): one record per layoutData entry
in layout order; a cell with no assigned label gets text "" without any
service call, a cell with a label gets the (possibly empty) extraction
result for that cell. -/
def buildResults (layoutData : List CellDef)
    (gl : List (Pos × LabelInfo)) (ocr : ℕ → ℕ → OcrOutcome) :
    List ResultRecord :=
  layoutData.map (fun d =>
    match dictGet gl (d.row, d.col) with
    | some _ => ⟨d.row, d.col, extract_and_ocr_label (ocr d.row d.col)⟩
    | none => ⟨d.row, d.col, ""⟩)

/-- Substring test for character lists: Python's needle-in-hay check. -/
def hasSub (needle : List Char) : List Char → Bool
  | [] => needle.isEmpty
  | c :: t => needle.isPrefixOf (c :: t) || hasSub needle t

/-- Python's str.lower over the characters of a string. -/
def strLower (s : String) : List Char :=
  s.toList.map Char.toLower

/-- find_layout_by_name (lines 72-78): first template whose lowercased
name contains the lowercased selector. -/
def find_layout_by_name (templates : List Layout) (name : String) :
    Option Layout :=
  templates.find? (fun t => hasSub (strLower name) (strLower t.name))

/-- The externally visible stages of main, in the order main runs them. -/
inductive Step where
  | fetchTemplates
  | listLayouts
  | loadImage
  | detectMarkers
  | rectify
  | findLabels
  | fetchSizes
  | assignGrid
  | runOcr
  | writeResults
deriving DecidableEq

/-- How a run of main ends: `fatalExit` is a `sys.exit(1)` with a printed
error, `listedLayouts` the `sys.exit(0)` of --list-layouts, `crashed` an
uncaught exception (traceback, non-zero interpreter exit), `completed` a
normal return carrying the written ocr_results.json records. -/
inductive Outcome where
  | fatalExit
  | listedLayouts
  | crashed
  | completed (results : List ResultRecord)
deriving DecidableEq

/-- The oracle inputs of one invocation: CLI arguments, the two catalog
responses (none = request failed), whether the image file decodes, the
four marker-detection passes, the component list segmented from the
rectified image, and the per-cell text-extraction outcomes. -/
structure Env where
  templatesResp : Option (List Layout)
  listLayoutsFlag : Bool
  layoutArg : Option String
  imageGiven : Bool
  imageLoads : Bool
  pass1 : List (ℕ × Marker)
  pass2 : List (ℕ × Marker)
  pass3 : List (ℕ × Marker)
  pass4 : List (ℕ × Marker)
  components : List Component
  sizesResp : Option (List DrawerSize)
  ocr : ℕ → ℕ → OcrOutcome

/-- The steps main has performed by the time it fetches drawer sizes
(lines 686-709): markers, rectification and label detection all precede
the size-class request. -/
def mainPreSteps : List Step :=
  [Step.fetchTemplates, Step.loadImage, Step.detectMarkers,
   Step.rectify, Step.findLabels, Step.fetchSizes]

/-- The tail of main from the drawer-size fetch onward (lines 708-751):
grid assignment (which crashes when the size fetch failed and candidates
exist), then the OCR loop and the results artifact. -/
def afterLabels (layout : Layout) (cb : CaseBounds)
    (labels : List LabelInfo) (sizesResp : Option (List DrawerSize))
    (ocr : ℕ → ℕ → OcrOutcome) : List Step × Outcome :=
  match assign_labels_to_grid labels cb layout sizesResp with
  | .error _ => (mainPreSteps ++ [Step.assignGrid], Outcome.crashed)
  | .ok (gl, _) =>
    (mainPreSteps ++ [Step.assignGrid, Step.runOcr, Step.writeResults],
     Outcome.completed (buildResults layout.layoutData gl ocr))

/-- main (lines 637-756): fetch templates (failure is fatal), handle
--list-layouts, require the layout selector and image argument, match the
layout, load the image, detect markers, rectify, find labels, then the
afterLabels tail.  The first component records which stages ran. -/
def mainRun (env : Env) : List Step × Outcome :=
  match env.templatesResp with
  | none => ([Step.fetchTemplates], Outcome.fatalExit)
  | some templates =>
    if env.listLayoutsFlag then
      ([Step.fetchTemplates, Step.listLayouts], Outcome.listedLayouts)
    else
      match env.layoutArg with
      | none => ([Step.fetchTemplates], Outcome.fatalExit)
      | some layoutName =>
        if env.imageGiven = false then
          ([Step.fetchTemplates], Outcome.fatalExit)
        else
          match find_layout_by_name templates layoutName with
          | none => ([Step.fetchTemplates], Outcome.fatalExit)
          | some layout =>
            if env.imageLoads = false then
              ([Step.fetchTemplates, Step.loadImage], Outcome.fatalExit)
            else
              match find_aruco_markers env.pass1 env.pass2 env.pass3
                  env.pass4 with
              | none =>
                ([Step.fetchTemplates, Step.loadImage, Step.detectMarkers],
                 Outcome.fatalExit)
              | some corners =>
                afterLabels layout (perspective_transform corners none)
                  (find_white_labels
                    (perspective_transform corners none).bottom
                    env.components)
                  env.sizesResp env.ocr

/-! ## Helper lemmas -/

theorem dictGet_dictInsert {α β : Type} [DecidableEq α]
    (gl : List (α × β)) (k a : α) (v : β) :
    dictGet (dictInsert gl k v) a = if k = a then some v else dictGet gl a := by
  induction gl with
  | nil => simp [dictGet, dictInsert]
  | cons hd t ih =>
    obtain ⟨k0, v0⟩ := hd
    simp only [dictInsert]
    by_cases hk : k0 = k
    · subst hk
      simp only [if_pos rfl, dictGet]
      by_cases ha : k0 = a <;> simp [ha]
    · rw [if_neg hk]
      simp only [dictGet, ih]
      by_cases ha : k0 = a <;> by_cases hka : k = a <;> simp_all

theorem mergeDetections_nil (acc : List (ℕ × Marker)) :
    mergeDetections acc [] = acc := rfl

theorem mergeDetections_cons (acc : List (ℕ × Marker)) (d : ℕ × Marker)
    (dets : List (ℕ × Marker)) :
    mergeDetections acc (d :: dets) =
      mergeDetections (if d.1 ∈ acc.map Prod.fst then acc else acc ++ [d])
        dets := rfl

/-- Every merge pass only appends: the original accumulator is a prefix of
the result, and everything appended carries an id the accumulator did not
already hold. -/
theorem mergeDetections_extends (dets acc : List (ℕ × Marker)) :
    ∃ rest, mergeDetections acc dets = acc ++ rest ∧
      ∀ p ∈ rest, p.1 ∉ acc.map Prod.fst := by
  induction dets generalizing acc with
  | nil => exact ⟨[], by simp [mergeDetections_nil], by simp⟩
  | cons d dets ih =>
    rw [mergeDetections_cons]
    by_cases h : d.1 ∈ acc.map Prod.fst
    · rw [if_pos h]; exact ih acc
    · rw [if_neg h]
      obtain ⟨rest, heq, hrest⟩ := ih (acc ++ [d])
      refine ⟨d :: rest, by simpa using heq, ?_⟩
      intro p hp
      simp only [List.mem_cons] at hp
      rcases hp with rfl | hp
      · exact h
      · intro hmem
        exact hrest p hp (by simp [hmem])

/-! ## C9: later detection passes never overwrite an identity -/

/-- Claim C9: across the Fiducial Detector's successive detection passes,
a marker identity already present in the running result set is never
overwritten by a detection of the same identity in a later pass: after
merging a later pass, the entries carrying an already-present id are
exactly the accumulator's entries for that id (later passes only add
identities not yet found). -/
theorem merge_never_overwrites (acc dets : List (ℕ × Marker)) (mid : ℕ)
    (h : mid ∈ acc.map Prod.fst) :
    (mergeDetections acc dets).filter (fun p => decide (p.1 = mid)) =
      acc.filter (fun p => decide (p.1 = mid)) := by
  obtain ⟨rest, heq, hrest⟩ := mergeDetections_extends dets acc
  rw [heq, List.filter_append]
  have hnil : rest.filter (fun p => decide (p.1 = mid)) = [] := by
    rw [List.filter_eq_nil_iff]
    intro p hp
    simp only [decide_eq_true_eq]
    intro hpe
    exact hrest p hp (hpe ▸ h)
  simp [hnil]

/-- A concrete instance of merge_never_overwrites: id 1 was found in the
first pass at marker mA; a later pass detecting id 1 again (at mB) is
ignored while the new id 2 is added. -/
theorem merge_never_overwrites_witness :
    (mergeDetections [(1, Marker.mk (0, 0) (1, 0) (1, 1) (0, 1))]
        [(1, Marker.mk (5, 5) (6, 5) (6, 6) (5, 6)),
         (2, Marker.mk (9, 9) (10, 9) (10, 10) (9, 10))]).filter
        (fun p => decide (p.1 = 1)) =
      [(1, Marker.mk (0, 0) (1, 0) (1, 1) (0, 1))].filter
        (fun p => decide (p.1 = 1)) :=
  merge_never_overwrites [(1, Marker.mk (0, 0) (1, 0) (1, 1) (0, 1))]
    [(1, Marker.mk (5, 5) (6, 5) (6, 6) (5, 6)),
     (2, Marker.mk (9, 9) (10, 9) (10, 10) (9, 10))] 1 (by decide)

/-! ## C5: the fixed per-identity corner offset rule -/

/-- Claim C5: given detections of all four known marker identities, the
Fiducial Detector returns exactly the Corner Set given by the fixed
per-identity offset rule: the id-1 (top-left) marker contributes its own
bottom-right corner `c2`, the id-3 (top-right) marker its bottom-left
corner `c3`, the id-4 (bottom-left) marker its top-right corner `c1`, and
the id-2 (bottom-right) marker its top-left corner `c0` — not any
symmetric corner convention. -/
theorem fiducial_fixed_offset_rule (a b c d : Marker) :
    find_aruco_markers [(1, a), (2, b), (3, c), (4, d)] [] [] [] =
      some ⟨a.c2, c.c3, d.c1, b.c0⟩ := rfl

/-! ## C10: empty candidate list short-circuits grid assignment -/

/-- Claim C10: with an empty Region Candidate list the Grid Mapper
returns an empty Grid Assignment and no Cell Boundary map at all (None),
whatever the layout defines — and the diagnostics renderer draws no cell
boundary rectangles from a None grid_info. -/
theorem empty_candidates_no_boundaries (cb : CaseBounds) (layout : Layout)
    (drawer_sizes : Option (List DrawerSize)) :
    assign_labels_to_grid [] cb layout drawer_sizes = .ok ([], none) ∧
      debugBoundaryRects none = [] :=
  ⟨rfl, rfl⟩

/-! ## C7: the candidate filter checks margins only at the top and bottom -/

/-- A connected component whose bounding box starts at the left image
edge (x = 0) but satisfies every condition the code actually checks. -/
def edgeComponentC7 : Component := ⟨0, 60, 101, 30, 3001⟩

/-- Claim C7 is false as stated: it requires the bounding box to stay
clear of a margin near all four image edges, but the filter has no
left/right condition.  This component touches the left edge (x = 0) and
is nonetheless kept as a Region Candidate in a 400-pixel-high image. -/
theorem edge_component_kept_counterexample :
    edgeComponentC7.x = 0 ∧
      find_white_labels 400 [edgeComponentC7] = [mkLabel edgeComponentC7] := by
  constructor
  · rfl
  · have hk : keepComponent 400 edgeComponentC7 = true := by
      simp only [keepComponent, Bool.and_eq_true, decide_eq_true_eq]
      norm_num [edgeComponentC7]
    simp [find_white_labels, List.filter, hk, List.insertionSort,
      List.orderedInsert]

/-- Claim C7 amended: a component is kept as a Region Candidate iff its
width exceeds 100, its height lies strictly between 20 and 150, its
width-to-height ratio exceeds 2, its area exceeds 3000, and its bounding
box stays clear of a fixed margin at the top and bottom edges only
(50 < y and y < height - 100); there is no left or right edge-margin
condition. -/
theorem candidate_filter_characterization (height : ℚ)
    (comps : List Component) (l : LabelInfo) :
    l ∈ find_white_labels height comps ↔
      ∃ c, c ∈ comps ∧ mkLabel c = l ∧ 100 < c.w ∧ 20 < c.h ∧ c.h < 150 ∧
        2 < c.w / c.h ∧ 3000 < c.area ∧ 50 < c.y ∧ c.y < height - 100 := by
  unfold find_white_labels
  rw [List.mem_insertionSort]
  simp only [List.mem_map, List.mem_filter, keepComponent,
    Bool.and_eq_true, decide_eq_true_eq, and_assoc]
  constructor
  · rintro ⟨c, hmem, h1, h2, h3, h4, h5, h6, h7, hl⟩
    exact ⟨c, hmem, hl, h1, h2, h3, h4, h5, h6, h7⟩
  · rintro ⟨c, hmem, hl, h1, h2, h3, h4, h5, h6, h7⟩
    exact ⟨c, hmem, h1, h2, h3, h4, h5, h6, h7, hl⟩

/-! ## C6: rectifier output size truncates rather than rounds -/

theorem sqDist_nonneg (p q : Pt) : 0 ≤ sqDist p q := by
  unfold sqDist
  positivity

theorem floorSqrt_sq_le (x : ℚ) (hx : 0 ≤ x) :
    ((floorSqrt x : ℚ)) ^ 2 ≤ x := by
  unfold floorSqrt
  have h0 : (0 : ℤ) ≤ ⌊x⌋ := Int.floor_nonneg.mpr hx
  have hs : (Nat.sqrt (Int.toNat ⌊x⌋)) ^ 2 ≤ Int.toNat ⌊x⌋ := Nat.sqrt_le' _
  have h1 : ((Nat.sqrt (Int.toNat ⌊x⌋) : ℚ)) ^ 2 ≤ ((Int.toNat ⌊x⌋ : ℚ)) := by
    exact_mod_cast hs
  have h2 : ((Int.toNat ⌊x⌋ : ℚ)) = ((⌊x⌋ : ℤ) : ℚ) := by
    exact_mod_cast congrArg Int.cast (Int.toNat_of_nonneg h0)
  calc ((Nat.sqrt (Int.toNat ⌊x⌋) : ℚ)) ^ 2 ≤ ((Int.toNat ⌊x⌋ : ℚ)) := h1
    _ = ((⌊x⌋ : ℤ) : ℚ) := h2
    _ ≤ x := Int.floor_le x

theorem lt_floorSqrt_succ_sq (x : ℚ) (hx : 0 ≤ x) :
    x < ((floorSqrt x : ℚ) + 1) ^ 2 := by
  unfold floorSqrt
  have h0 : (0 : ℤ) ≤ ⌊x⌋ := Int.floor_nonneg.mpr hx
  have hs : Int.toNat ⌊x⌋ < (Nat.sqrt (Int.toNat ⌊x⌋) + 1) ^ 2 :=
    Nat.lt_succ_sqrt' _
  have h1 : ((Int.toNat ⌊x⌋ : ℚ)) + 1 ≤ ((Nat.sqrt (Int.toNat ⌊x⌋) : ℚ) + 1) ^ 2 := by
    exact_mod_cast hs
  have h2 : ((Int.toNat ⌊x⌋ : ℚ)) = ((⌊x⌋ : ℤ) : ℚ) := by
    exact_mod_cast congrArg Int.cast (Int.toNat_of_nonneg h0)
  calc x < ((⌊x⌋ : ℤ) : ℚ) + 1 := Int.lt_floor_add_one x
    _ = ((Int.toNat ⌊x⌋ : ℚ)) + 1 := by rw [h2]
    _ ≤ ((Nat.sqrt (Int.toNat ⌊x⌋) : ℚ) + 1) ^ 2 := h1

/-- Claim C6 amended: with no explicit output size the rectifier's
target width is the floor (Python int() truncation, not
round-to-nearest) of the larger of the top-edge and bottom-edge lengths,
its target height the floor of the larger of the left-edge and
right-edge lengths — each width w satisfies w^2 ≤ (max squared edge
length) < (w+1)^2, i.e. w is the integer part of the true length — and
the returned bounds are always (0, 0, width, height). -/
theorem rectifier_size_floor (c : Corners) :
    perspective_transform c none =
      ⟨0, 0, ((perspSize c none).1 : ℚ), ((perspSize c none).2 : ℚ)⟩ ∧
    (((perspSize c none).1 : ℚ)) ^ 2 ≤ max (sqDist c.tr c.tl) (sqDist c.br c.bl) ∧
    max (sqDist c.tr c.tl) (sqDist c.br c.bl) < (((perspSize c none).1 : ℚ) + 1) ^ 2 ∧
    (((perspSize c none).2 : ℚ)) ^ 2 ≤ max (sqDist c.bl c.tl) (sqDist c.br c.tr) ∧
    max (sqDist c.bl c.tl) (sqDist c.br c.tr) < (((perspSize c none).2 : ℚ) + 1) ^ 2 := by
  have hw : 0 ≤ max (sqDist c.tr c.tl) (sqDist c.br c.bl) :=
    le_trans (sqDist_nonneg c.tr c.tl) (le_max_left _ _)
  have hh : 0 ≤ max (sqDist c.bl c.tl) (sqDist c.br c.tr) :=
    le_trans (sqDist_nonneg c.bl c.tl) (le_max_left _ _)
  refine ⟨rfl, ?_, ?_, ?_, ?_⟩
  · exact floorSqrt_sq_le _ hw
  · exact lt_floorSqrt_succ_sq _ hw
  · exact floorSqrt_sq_le _ hh
  · exact lt_floorSqrt_succ_sq _ hh

/-- A corner quadrilateral whose top and bottom edges have length
sqrt 13 = 3.605..: rounding to the nearest integer pixel gives 4. -/
def cornersC6 : Corners := ⟨(0, 0), (3, 2), (0, 5), (3, 7)⟩

/-- Claim C6 is false as stated: the edge lengths of cornersC6 are
sqrt 13 (squared length 13, strictly between 3.5^2 and 4^2, so the
nearest integer is 4), yet the code computes width 3 = int(sqrt 13),
truncating instead of rounding to nearest. -/
theorem rectifier_rounding_counterexample :
    (perspSize cornersC6 none).1 = 3 ∧
      ((3 : ℚ) + 1 / 2) ^ 2 < max (sqDist cornersC6.tr cornersC6.tl)
        (sqDist cornersC6.br cornersC6.bl) ∧
      max (sqDist cornersC6.tr cornersC6.tl)
        (sqDist cornersC6.br cornersC6.bl) < (4 : ℚ) ^ 2 := by
  have h13 : max (sqDist cornersC6.tr cornersC6.tl)
      (sqDist cornersC6.br cornersC6.bl) = 13 := by
    norm_num [sqDist, cornersC6]
  refine ⟨?_, ?_, ?_⟩
  · have hr : (perspSize cornersC6 none).1 = floorSqrt
        (max (sqDist cornersC6.tr cornersC6.tl)
          (sqDist cornersC6.br cornersC6.bl)) := rfl
    rw [hr, h13]
    have hf : ⌊(13 : ℚ)⌋ = 13 := by norm_num
    rw [floorSqrt, hf]
    show Nat.sqrt (Int.toNat 13) = 3
    have ht : Int.toNat 13 = 13 := rfl
    have h1 : Nat.sqrt 13 < 4 := Nat.sqrt_lt.2 (by norm_num)
    have h2 : 3 ≤ Nat.sqrt 13 := Nat.le_sqrt.2 (by norm_num)
    rw [ht]
    omega
  · rw [h13]; norm_num
  · rw [h13]; norm_num

/-! ## C2: there is no uniform-policy fallback -/

theorem foldl_boundStep_skip (cb : CaseBounds) (uw uh : ℚ)
    (sizes : List DrawerSize) (l : List CellDef)
    (acc : List (Pos × DrawerBounds))
    (h : ∀ d ∈ l, sizeMapGet sizes d.size = none) :
    l.foldl (boundStep cb uw uh sizes) acc = acc := by
  induction l generalizing acc with
  | nil => rfl
  | cons d t ih =>
    have hd : sizeMapGet sizes d.size = none := h d (by simp)
    have hstep : boundStep cb uw uh sizes acc d = acc := by
      simp [boundStep, hd]
    rw [List.foldl_cons, hstep]
    exact ih acc (fun d hd => h d (by simp [hd]))

theorem foldl_assignStep_nil_bs (labels : List LabelInfo)
    (gl : List (Pos × LabelInfo)) :
    labels.foldl (assignStep []) gl = gl := by
  induction labels generalizing gl with
  | nil => rfl
  | cons l t ih => exact ih gl

/-- A 1x1 layout whose single Cell Definition (1, 1) names size "std". -/
def layoutC2 : Layout := ⟨"case", 1, 1, [⟨1, 1, "std"⟩]⟩

/-- Rectified bounds 100 x 100. -/
def cbC2 : CaseBounds := ⟨0, 0, 100, 100⟩

/-- A candidate whose center (50, 50) is exactly the center of cell
(1, 1) of the uniform 1 x 1 grid over cbC2. -/
def lblC2 : LabelInfo := ⟨30, 45, 40, 10, 50, 50, 400⟩

/-- Claim C2 is false as stated: with no size metadata available (an
empty size-class catalog) the layout's only Cell Definition is (1, 1),
and lblC2 sits exactly at the center of cell (1, 1) of the uniform grid,
so the claimed uniform policy would assign it to (1, 1); but the code
has no uniform fallback — it skips every cell whose size class is
unknown and discards every candidate, returning an empty Grid
Assignment. -/
theorem no_uniform_policy_counterexample :
    lblC2.cx = 50 ∧ lblC2.cy = 50 ∧
      (assign_labels_to_grid [lblC2] cbC2 layoutC2
          (some [])).toOption.map Prod.fst = some [] :=
  ⟨rfl, rfl, rfl⟩

/-- Claim C2 amended: the Grid Mapper applies no uniform policy.  When
the layout carries no usable size metadata — no Cell Definition's size
class resolves in the catalog — every Cell Definition is skipped, every
candidate is discarded, and the Grid Assignment is empty (no candidate
is ever mapped through uniform cell indices). -/
theorem no_size_metadata_empty_assignment (labels : List LabelInfo)
    (cb : CaseBounds) (layout : Layout) (sizes : List DrawerSize)
    (h : ∀ d ∈ layout.layoutData, sizeMapGet sizes d.size = none) :
    (assign_labels_to_grid labels cb layout
        (some sizes)).toOption.map Prod.fst = some [] := by
  unfold assign_labels_to_grid
  by_cases hl : labels.isEmpty
  · simp [hl]
    exact ⟨_, rfl⟩
  · have hbs : buildBoundaries cb layout sizes = [] :=
      foldl_boundStep_skip _ _ _ _ _ _ h
    simp [hl, hbs, foldl_assignStep_nil_bs]
    exact ⟨_, rfl⟩

/-- A concrete run of the amended C2: a catalog holding only size "big"
leaves both "std" cells unresolved, so two candidates yield an empty
assignment. -/
theorem no_size_metadata_empty_assignment_witness :
    (assign_labels_to_grid [lblC2, LabelInfo.mk 30 20 40 10 50 25 350]
        cbC2 (Layout.mk "case2" 1 2 [⟨1, 1, "std"⟩, ⟨2, 1, "std"⟩])
        (some [DrawerSize.mk "big" 2 2])).toOption.map Prod.fst = some [] :=
  no_size_metadata_empty_assignment
    [lblC2, LabelInfo.mk 30 20 40 10 50 25 350] cbC2
    (Layout.mk "case2" 1 2 [⟨1, 1, "std"⟩, ⟨2, 1, "std"⟩])
    [DrawerSize.mk "big" 2 2] (by decide)

/-! ## C8: per-cell extraction failures and the results artifact -/

/-- Claim C8: the results artifact has exactly one record per Cell
Definition, in layout iteration order (the projected (row, col) sequence
equals the layout's), and any cell whose text-extraction call failed
(timeout, transport error or non-success response) carries the empty
string — the loop never aborts. -/
theorem results_per_cell (layoutData : List CellDef)
    (gl : List (Pos × LabelInfo)) (ocr : ℕ → ℕ → OcrOutcome) :
    (buildResults layoutData gl ocr).map (fun r => (r.row, r.col)) =
      layoutData.map (fun d => (d.row, d.col)) ∧
    ∀ r ∈ buildResults layoutData gl ocr,
      ocr r.row r.col = OcrOutcome.failure → r.text = "" := by
  constructor
  · induction layoutData with
    | nil => rfl
    | cons d t ih =>
      simp only [buildResults, List.map_cons] at ih ⊢
      cases hg : dictGet gl (d.row, d.col) <;> simp [hg, ih]
  · intro r hr hf
    simp only [buildResults, List.mem_map] at hr
    obtain ⟨d, hd, hrd⟩ := hr
    cases hg : dictGet gl (d.row, d.col) <;> rw [hg] at hrd <;> subst hrd
    · rfl
    · have hf2 : ocr d.row d.col = OcrOutcome.failure := hf
      show extract_and_ocr_label (ocr d.row d.col) = ""
      rw [hf2]
      rfl

/-- A concrete run of results_per_cell: a two-cell layout with one
assigned label and a text service that always fails yields the records
(1,1,"") and (1,2,"") in layout order. -/
theorem results_per_cell_witness :
    (buildResults [CellDef.mk 1 1 "std", CellDef.mk 1 2 "std"]
          [((1, 1), LabelInfo.mk 30 45 40 10 50 50 400)]
          (fun _ _ => OcrOutcome.failure)).map (fun r => (r.row, r.col)) =
        [(1, 1), (1, 2)] ∧
      ∀ r ∈ buildResults [CellDef.mk 1 1 "std", CellDef.mk 1 2 "std"]
          [((1, 1), LabelInfo.mk 30 45 40 10 50 50 400)]
          (fun _ _ => OcrOutcome.failure),
        (fun _ _ => OcrOutcome.failure : ℕ → ℕ → OcrOutcome) r.row r.col =
            OcrOutcome.failure →
          r.text = "" :=
  ⟨(results_per_cell [CellDef.mk 1 1 "std", CellDef.mk 1 2 "std"]
      [((1, 1), LabelInfo.mk 30 45 40 10 50 50 400)]
      (fun _ _ => OcrOutcome.failure)).1.trans (by decide),
   (results_per_cell [CellDef.mk 1 1 "std", CellDef.mk 1 2 "std"]
      [((1, 1), LabelInfo.mk 30 45 40 10 50 50 400)]
      (fun _ _ => OcrOutcome.failure)).2⟩

/-! ## C4: conflict resolution keeps the first candidate of maximal area -/

/-- Selection step of the spec's conflict-resolution rule: a later
candidate replaces the current one only when its area is strictly
larger. -/
def areaStep (acc : Option LabelInfo) (l : LabelInfo) : Option LabelInfo :=
  match acc with
  | none => some l
  | some m => if m.area < l.area then some l else acc

/-- Spec-side characterization of the winner of a cell: the first
candidate, in discovery order, attaining the maximal area. -/
def specFirstMaxByArea (qs : List LabelInfo) : Option LabelInfo :=
  qs.foldl areaStep none

/-- A candidate qualifies for a cell when that cell's boundary is the
nearest one to its center and the center passes the 30% margin test —
the exact guard under which the assignment loop touches that cell. -/
def qualifies (bs : List (Pos × DrawerBounds)) (pos : Pos)
    (l : LabelInfo) : Bool :=
  if best_position l.cx l.cy bs = some pos then
    match dictGet bs pos with
    | some b => withinMargin b l.cx l.cy
    | none => false
  else false

theorem dictGet_assignStep (bs : List (Pos × DrawerBounds))
    (gl : List (Pos × LabelInfo)) (l : LabelInfo) (pos : Pos) :
    dictGet (assignStep bs gl l) pos =
      if qualifies bs pos l then areaStep (dictGet gl pos) l
      else dictGet gl pos := by
  unfold assignStep qualifies
  cases hbp : best_position l.cx l.cy bs with
  | none => simp
  | some p =>
    by_cases hp : p = pos
    · subst hp
      cases hbg : dictGet bs p with
      | none => simp [hbg]
      | some b =>
        by_cases hm : withinMargin b l.cx l.cy
        · cases hgl : dictGet gl p with
          | none => simp [hbg, hm, hgl, dictGet_dictInsert, areaStep]
          | some prev =>
            by_cases ha : prev.area < l.area
            · simp [hbg, hm, hgl, ha, dictGet_dictInsert, areaStep]
            · simp [hbg, hm, hgl, ha, areaStep]
        · simp [hbg, hm]
    · have hne : ¬(some p = some pos) := by simpa using hp
      cases hbg : dictGet bs p with
      | none => simp [hne, hbg]
      | some b =>
        by_cases hm : withinMargin b l.cx l.cy
        · cases hgl : dictGet gl p with
          | none => simp [hne, hbg, hm, hgl, dictGet_dictInsert, hp]
          | some prev =>
            by_cases ha : prev.area < l.area <;>
              simp [hne, hbg, hm, hgl, ha, dictGet_dictInsert, hp]
        · simp [hne, hbg, hm]

theorem dictGet_foldl_assignStep (bs : List (Pos × DrawerBounds))
    (labels : List LabelInfo) (gl : List (Pos × LabelInfo)) (pos : Pos) :
    dictGet (labels.foldl (assignStep bs) gl) pos =
      (labels.filter (qualifies bs pos)).foldl areaStep (dictGet gl pos) := by
  induction labels generalizing gl with
  | nil => rfl
  | cons l t ih =>
    rw [List.foldl_cons, ih, List.filter_cons]
    by_cases hq : qualifies bs pos l
    · simp [hq, dictGet_assignStep]
    · simp [hq, dictGet_assignStep]

theorem mem_keys_dictInsert {α β : Type} [DecidableEq α]
    (gl : List (α × β)) (k a : α) (v : β) :
    a ∈ (dictInsert gl k v).map Prod.fst ↔
      a ∈ gl.map Prod.fst ∨ a = k := by
  induction gl with
  | nil => simp [dictInsert]
  | cons hd t ih =>
    obtain ⟨k0, v0⟩ := hd
    show a ∈ (if k0 = k then (k, v) :: t
        else (k0, v0) :: dictInsert t k v).map Prod.fst ↔ _
    by_cases hk : k0 = k
    · subst hk
      rw [if_pos rfl]
      simp only [List.map_cons, List.mem_cons]
      tauto
    · rw [if_neg hk]
      simp only [List.map_cons, List.mem_cons, ih]
      tauto

theorem nodup_keys_dictInsert {α β : Type} [DecidableEq α]
    (gl : List (α × β)) (k : α) (v : β)
    (h : (gl.map Prod.fst).Nodup) :
    ((dictInsert gl k v).map Prod.fst).Nodup := by
  induction gl with
  | nil => simp [dictInsert]
  | cons hd t ih =>
    obtain ⟨k0, v0⟩ := hd
    simp only [List.map_cons, List.nodup_cons] at h
    by_cases hk : k0 = k
    · subst hk
      simpa [dictInsert, List.nodup_cons] using h
    · simp only [dictInsert, if_neg hk, List.map_cons, List.nodup_cons]
      refine ⟨?_, ih h.2⟩
      rw [mem_keys_dictInsert]
      rintro (hmem | rfl)
      · exact h.1 hmem
      · exact hk rfl

/-- assignStep either leaves the dict unchanged or performs one
dictInsert. -/
theorem assignStep_cases (bs : List (Pos × DrawerBounds))
    (gl : List (Pos × LabelInfo)) (l : LabelInfo) :
    assignStep bs gl l = gl ∨
      ∃ p, assignStep bs gl l = dictInsert gl p l := by
  unfold assignStep
  cases hbp : best_position l.cx l.cy bs with
  | none => exact Or.inl rfl
  | some p =>
    cases hbg : dictGet bs p with
    | none => exact Or.inl (by simp [hbg])
    | some b =>
      by_cases hm : withinMargin b l.cx l.cy
      · cases hgl : dictGet gl p with
        | none => exact Or.inr ⟨p, by simp [hbg, hm, hgl]⟩
        | some prev =>
          by_cases ha : prev.area < l.area
          · exact Or.inr ⟨p, by simp [hbg, hm, hgl, ha]⟩
          · exact Or.inl (by simp [hbg, hm, hgl, ha])
      · exact Or.inl (by simp [hbg, hm])

theorem nodup_keys_foldl_assignStep (bs : List (Pos × DrawerBounds))
    (labels : List LabelInfo) (gl : List (Pos × LabelInfo))
    (h : (gl.map Prod.fst).Nodup) :
    (((labels.foldl (assignStep bs) gl)).map Prod.fst).Nodup := by
  induction labels generalizing gl with
  | nil => exact h
  | cons l t ih =>
    rw [List.foldl_cons]
    refine ih _ ?_
    rcases assignStep_cases bs gl l with heq | ⟨p, heq⟩
    · rwa [heq]
    · rw [heq]; exact nodup_keys_dictInsert gl p l h

/-- The single drawer boundary used in the concrete conflict example:
cell (1, 1) covering all of a 100 x 100 rectified image. -/
def bC4 : DrawerBounds := ⟨0, 0, 100, 100, 100, 100, 50, 50⟩

/-- A boundary map with the single cell (1, 1). -/
def bsC4 : List (Pos × DrawerBounds) := [((1, 1), bC4)]

/-- A candidate of area 500 centered at (40, 50). -/
def lbl500 : LabelInfo := ⟨15, 45, 50, 10, 40, 50, 500⟩

/-- A candidate of area 900 centered at (60, 50). -/
def lbl900 : LabelInfo := ⟨35, 45, 50, 10, 60, 50, 900⟩

/-- Claim C4: (i) the value stored at each cell is exactly the first
candidate, in discovery order, of maximal area among those qualifying
for that cell — so a larger area always wins and equal areas keep the
earlier candidate; (ii) the Grid Assignment's keys are distinct, so
every logical cell maps to at most one candidate; (iii) concretely, of
two candidates with areas 500 and 900 qualifying for cell (1, 1), only
the area-900 candidate remains. -/
theorem grid_assignment_conflict_resolution :
    (∀ (bs : List (Pos × DrawerBounds)) (labels : List LabelInfo)
        (pos : Pos),
      dictGet (labels.foldl (assignStep bs) []) pos =
        specFirstMaxByArea (labels.filter (qualifies bs pos))) ∧
    (∀ (bs : List (Pos × DrawerBounds)) (labels : List LabelInfo),
      (((labels.foldl (assignStep bs) [])).map Prod.fst).Nodup) ∧
    dictGet ([lbl500, lbl900].foldl (assignStep bsC4) []) (1, 1) =
      some lbl900 := by
  have hmain : ∀ (bs : List (Pos × DrawerBounds)) (labels : List LabelInfo)
      (pos : Pos),
      dictGet (labels.foldl (assignStep bs) []) pos =
        specFirstMaxByArea (labels.filter (qualifies bs pos)) :=
    fun bs labels pos => dictGet_foldl_assignStep bs labels [] pos
  refine ⟨hmain, ?_, ?_⟩
  · exact fun bs labels =>
      nodup_keys_foldl_assignStep bs labels [] (by simp)
  · rw [hmain]
    have hq500 : qualifies bsC4 (1, 1) lbl500 =
        withinMargin bC4 lbl500.cx lbl500.cy := rfl
    have hq900 : qualifies bsC4 (1, 1) lbl900 =
        withinMargin bC4 lbl900.cx lbl900.cy := rfl
    have hm500 : withinMargin bC4 lbl500.cx lbl500.cy = true := by
      simp only [withinMargin, Bool.and_eq_true, decide_eq_true_eq]
      norm_num [bC4, lbl500]
    have hm900 : withinMargin bC4 lbl900.cx lbl900.cy = true := by
      simp only [withinMargin, Bool.and_eq_true, decide_eq_true_eq]
      norm_num [bC4, lbl900]
    rw [List.filter_cons, List.filter_cons]
    rw [hq500, hm500, hq900, hm900]
    simp only [List.filter_nil, if_pos rfl]
    show specFirstMaxByArea [lbl500, lbl900] = some lbl900
    unfold specFirstMaxByArea
    simp only [List.foldl_cons, List.foldl_nil, areaStep]
    rw [if_pos (by norm_num [lbl500, lbl900])]

/-! ## C3: variable-size boundaries and nearest-center matching -/

theorem bestFold_some (cx cy : ℚ) (l : List (Pos × DrawerBounds)) :
    ∀ (p0 : Pos) (m0 : ℚ),
      ∃ p m, l.foldl (bestStep cx cy) (some p0, some m0) = (some p, some m) ∧
        m ≤ m0 ∧ (∀ q ∈ l, m ≤ centerDist2 cx cy q.2) ∧
        ((p = p0 ∧ m = m0) ∨
          ∃ b, (p, b) ∈ l ∧ m = centerDist2 cx cy b) := by
  induction l with
  | nil =>
    intro p0 m0
    exact ⟨p0, m0, rfl, le_refl _, by simp, Or.inl ⟨rfl, rfl⟩⟩
  | cons q t ih =>
    intro p0 m0
    rw [List.foldl_cons]
    by_cases hd : centerDist2 cx cy q.2 < m0
    · have hstep : bestStep cx cy (some p0, some m0) q =
          (some q.1, some (centerDist2 cx cy q.2)) := by
        simp [bestStep, hd]
      rw [hstep]
      obtain ⟨p, m, heq, hle, hmin, horig⟩ := ih q.1 (centerDist2 cx cy q.2)
      refine ⟨p, m, heq, le_trans hle (le_of_lt hd), ?_, ?_⟩
      · intro r hr
        rcases List.mem_cons.mp hr with rfl | hr
        · exact hle
        · exact hmin r hr
      · rcases horig with ⟨hp, hm⟩ | ⟨b, hb, hm⟩
        · exact Or.inr ⟨q.2, by simp [hp], hm⟩
        · exact Or.inr ⟨b, List.mem_cons_of_mem _ hb, hm⟩
    · have hstep : bestStep cx cy (some p0, some m0) q = (some p0, some m0) := by
        simp [bestStep, hd]
      rw [hstep]
      obtain ⟨p, m, heq, hle, hmin, horig⟩ := ih p0 m0
      refine ⟨p, m, heq, hle, ?_, ?_⟩
      · intro r hr
        rcases List.mem_cons.mp hr with rfl | hr
        · exact le_trans hle (not_lt.mp hd)
        · exact hmin r hr
      · rcases horig with h | ⟨b, hb, hm⟩
        · exact Or.inl h
        · exact Or.inr ⟨b, List.mem_cons_of_mem _ hb, hm⟩

/-- The position best_position returns carries a boundary in the list
whose center distance is minimal over all listed boundaries. -/
theorem best_position_min (cx cy : ℚ) (bs : List (Pos × DrawerBounds))
    (p : Pos) (h : best_position cx cy bs = some p) :
    ∃ b, (p, b) ∈ bs ∧
      ∀ q ∈ bs, centerDist2 cx cy b ≤ centerDist2 cx cy q.2 := by
  cases bs with
  | nil => cases h
  | cons q t =>
    unfold best_position at h
    rw [List.foldl_cons] at h
    have hstep : bestStep cx cy (none, none) q =
        (some q.1, some (centerDist2 cx cy q.2)) := rfl
    rw [hstep] at h
    obtain ⟨p', m, heq, hle, hmin, horig⟩ :=
      bestFold_some cx cy t q.1 (centerDist2 cx cy q.2)
    rw [heq] at h
    simp only [Option.some_inj] at h
    subst h
    rcases horig with ⟨hp, hm⟩ | ⟨b, hb, hm⟩
    · refine ⟨q.2, by simp [hp], ?_⟩
      intro r hr
      rcases List.mem_cons.mp hr with rfl | hr
      · rw [← hm]
      · rw [← hm]; exact hmin r hr
    · refine ⟨b, List.mem_cons_of_mem _ hb, ?_⟩
      intro r hr
      rcases List.mem_cons.mp hr with rfl | hr
      · rw [← hm]; exact hle
      · rw [← hm]; exact hmin r hr

theorem foldl_areaStep_mem (qs : List LabelInfo) :
    ∀ (acc : Option LabelInfo) (l : LabelInfo),
      qs.foldl areaStep acc = some l → acc = some l ∨ l ∈ qs := by
  induction qs with
  | nil => intro acc l h; exact Or.inl h
  | cons q t ih =>
    intro acc l h
    rw [List.foldl_cons] at h
    rcases ih _ l h with h' | h'
    · cases acc with
      | none =>
        simp only [areaStep, Option.some_inj] at h'
        subst h'
        exact Or.inr (List.mem_cons_self _ _)
      | some m =>
        by_cases ha : m.area < q.area
        · simp only [areaStep, if_pos ha, Option.some_inj] at h'
          subst h'
          exact Or.inr (List.mem_cons_self _ _)
        · simp only [areaStep, if_neg ha] at h'
          exact Or.inl h'
    · exact Or.inr (List.mem_cons_of_mem _ h')

theorem qualifies_true_iff (bs : List (Pos × DrawerBounds)) (pos : Pos)
    (l : LabelInfo) :
    qualifies bs pos l = true ↔
      best_position l.cx l.cy bs = some pos ∧
        ∃ b, dictGet bs pos = some b ∧ withinMargin b l.cx l.cy = true := by
  unfold qualifies
  by_cases hb : best_position l.cx l.cy bs = some pos
  · rw [if_pos hb]
    cases hg : dictGet bs pos with
    | none => simp [hb]
    | some b => simp [hb, hg]
  · rw [if_neg hb]
    simp [hb]

theorem isSome_foldl_boundStep (cb : CaseBounds) (uw uh : ℚ)
    (sizes : List DrawerSize) (l : List CellDef) :
    ∀ (acc : List (Pos × DrawerBounds)) (k : Pos),
      (dictGet acc k).isSome →
      (dictGet (l.foldl (boundStep cb uw uh sizes) acc) k).isSome := by
  induction l with
  | nil => intro acc k h; exact h
  | cons d t ih =>
    intro acc k h
    rw [List.foldl_cons]
    refine ih _ k ?_
    cases hs : sizeMapGet sizes d.size with
    | none => simpa [boundStep, hs] using h
    | some s =>
      simp only [boundStep, hs, dictGet_dictInsert]
      by_cases hk : (d.row, d.col) = k <;> simp [hk, h]

theorem dictGet_foldl_boundStep_mem (cb : CaseBounds) (uw uh : ℚ)
    (sizes : List DrawerSize) (l : List CellDef) :
    ∀ (acc : List (Pos × DrawerBounds)) (d : CellDef), d ∈ l →
      (sizeMapGet sizes d.size).isSome →
      (dictGet (l.foldl (boundStep cb uw uh sizes) acc)
        (d.row, d.col)).isSome := by
  induction l with
  | nil => intro acc d hd; cases hd
  | cons d0 t ih =>
    intro acc d hd hs
    rw [List.foldl_cons]
    rcases List.mem_cons.mp hd with rfl | hd'
    · obtain ⟨s, hs'⟩ := Option.isSome_iff_exists.mp hs
      refine isSome_foldl_boundStep cb uw uh sizes t _ _ ?_
      simp [boundStep, hs', dictGet_dictInsert]
    · exact ih _ d hd' hs

theorem dictGet_foldl_boundStep_char (cb : CaseBounds) (uw uh : ℚ)
    (sizes : List DrawerSize) (l : List CellDef) :
    ∀ (acc : List (Pos × DrawerBounds)) (r c : ℕ) (b : DrawerBounds),
      dictGet (l.foldl (boundStep cb uw uh sizes) acc) (r, c) = some b →
      dictGet acc (r, c) = some b ∨
        ∃ d ∈ l, d.row = r ∧ d.col = c ∧
          ∃ s, sizeMapGet sizes d.size = some s ∧
            b = mkBoundary cb uw uh r c s.widthUnits s.heightUnits := by
  induction l with
  | nil => intro acc r c b h; exact Or.inl h
  | cons d0 t ih =>
    intro acc r c b h
    rw [List.foldl_cons] at h
    rcases ih _ r c b h with h' | ⟨d, hd, hr, hc, s, hs, hb⟩
    · cases hs0 : sizeMapGet sizes d0.size with
      | none =>
        left
        simpa [boundStep, hs0] using h'
      | some s0 =>
        simp only [boundStep, hs0, dictGet_dictInsert] at h'
        by_cases hk : (d0.row, d0.col) = (r, c)
        · right
          rw [if_pos hk] at h'
          have hrow : d0.row = r := congrArg Prod.fst hk
          have hcol : d0.col = c := congrArg Prod.snd hk
          refine ⟨d0, List.mem_cons_self _ _, hrow, hcol, s0, hs0, ?_⟩
          rw [← hrow, ← hcol]
          exact (Option.some_inj.mp h').symm
        · left
          rwa [if_neg hk] at h'
    · exact Or.inr ⟨d, List.mem_cons_of_mem _ hd, hr, hc, s, hs, hb⟩

/-- The pixel geometry of mkBoundary: offset by the 1-indexed position
and sized as the size class's units times the per-unit pixel size. -/
theorem mkBoundary_fields (cb : CaseBounds) (uw uh : ℚ) (r c wu hu : ℕ) :
    (mkBoundary cb uw uh r c wu hu).left = cb.left + ((c : ℚ) - 1) * uw ∧
    (mkBoundary cb uw uh r c wu hu).top = cb.top + ((r : ℚ) - 1) * uh ∧
    (mkBoundary cb uw uh r c wu hu).width = (wu : ℚ) * uw ∧
    (mkBoundary cb uw uh r c wu hu).height = (hu : ℚ) * uh := by
  refine ⟨rfl, rfl, ?_, ?_⟩ <;>
    · simp only [mkBoundary]
      ring

/-- Claim C3: (i) every Cell Definition with a known size class gets a
Cell Boundary; (ii) every stored Cell Boundary is offset by its
1-indexed (row, column) position and its width/height are its size
class's units times the uniform per-unit pixel size (so a 2 x 1 cell is
exactly double the uniform cell width); (iii) a candidate stored at a
cell was matched to a boundary of that cell which passed the 30% margin
test and whose center is nearest to the candidate's center by squared
Euclidean distance among all boundaries. -/
theorem variable_size_policy :
    (∀ (cb : CaseBounds) (layout : Layout) (sizes : List DrawerSize)
        (d : CellDef), d ∈ layout.layoutData →
      (sizeMapGet sizes d.size).isSome →
      (dictGet (buildBoundaries cb layout sizes) (d.row, d.col)).isSome) ∧
    (∀ (cb : CaseBounds) (layout : Layout) (sizes : List DrawerSize)
        (r c : ℕ) (b : DrawerBounds),
      dictGet (buildBoundaries cb layout sizes) (r, c) = some b →
      ∃ d ∈ layout.layoutData, d.row = r ∧ d.col = c ∧
        ∃ s, sizeMapGet sizes d.size = some s ∧
          b.left = cb.left + ((c : ℚ) - 1) * unitWidth cb layout ∧
          b.top = cb.top + ((r : ℚ) - 1) * unitHeight cb layout ∧
          b.width = (s.widthUnits : ℚ) * unitWidth cb layout ∧
          b.height = (s.heightUnits : ℚ) * unitHeight cb layout) ∧
    (∀ (bs : List (Pos × DrawerBounds)) (labels : List LabelInfo)
        (pos : Pos) (l : LabelInfo),
      dictGet (labels.foldl (assignStep bs) []) pos = some l →
      best_position l.cx l.cy bs = some pos ∧
        (∃ b, dictGet bs pos = some b ∧ withinMargin b l.cx l.cy = true) ∧
        (∃ b, (pos, b) ∈ bs ∧
          ∀ q ∈ bs, centerDist2 l.cx l.cy b ≤ centerDist2 l.cx l.cy q.2)) := by
  refine ⟨?_, ?_, ?_⟩
  · intro cb layout sizes d hd hs
    exact dictGet_foldl_boundStep_mem cb (unitWidth cb layout)
      (unitHeight cb layout) sizes layout.layoutData [] d hd hs
  · intro cb layout sizes r c b hb
    rcases dictGet_foldl_boundStep_char cb (unitWidth cb layout)
        (unitHeight cb layout) sizes layout.layoutData [] r c b hb with
      h | ⟨d, hd, hr, hc, s, hs, hbe⟩
    · cases h
    · subst hbe
      obtain ⟨hl, ht, hw, hh⟩ := mkBoundary_fields cb (unitWidth cb layout)
        (unitHeight cb layout) r c s.widthUnits s.heightUnits
      exact ⟨d, hd, hr, hc, s, hs, hl, ht, hw, hh⟩
  · intro bs labels pos l hl
    rw [dictGet_foldl_assignStep] at hl
    have hmem : l ∈ labels.filter (qualifies bs pos) := by
      rcases foldl_areaStep_mem _ _ _ hl with h | h
      · cases h
      · exact h
    have hq : qualifies bs pos l = true :=
      (List.mem_filter.mp hmem).2
    obtain ⟨hbest, b, hget, hmargin⟩ := (qualifies_true_iff bs pos l).mp hq
    obtain ⟨b', hb', hmin⟩ := best_position_min l.cx l.cy bs pos hbest
    exact ⟨hbest, ⟨b, hget, hmargin⟩, ⟨b', hb', hmin⟩⟩

/-- A 3-column, 2-row layout over a 120 x 60 rectified image whose only
cell (1, 1) uses size "wide" (2 x 1 grid units): per-unit size 40 x 30. -/
def cbW3 : CaseBounds := ⟨0, 0, 120, 60⟩

/-- The layout template of the C3 witness. -/
def layoutW3 : Layout := ⟨"wide case", 3, 2, [⟨1, 1, "wide"⟩]⟩

/-- The size catalog of the C3 witness. -/
def sizesW3 : List DrawerSize := [⟨"wide", 2, 1⟩]

/-- A candidate centered at (40, 15), the center of the (1, 1) boundary. -/
def lblW3 : LabelInfo := ⟨20, 10, 40, 10, 40, 15, 400⟩

/-- The (1, 1) boundary of the C3 witness layout, exactly as
buildBoundaries stores it. -/
def bW3 : DrawerBounds :=
  mkBoundary cbW3 (unitWidth cbW3 layoutW3) (unitHeight cbW3 layoutW3) 1 1 2 1

/-- A concrete instance of variable_size_policy: the single 2 x 1 cell
(1, 1) has a boundary whose width 80 is exactly double the uniform cell
width 40, and the candidate lblW3 assigned to it passed the nearest-
center and margin tests. -/
theorem variable_size_policy_witness :
    (dictGet (buildBoundaries cbW3 layoutW3 sizesW3) (1, 1)).isSome ∧
    (∃ d ∈ layoutW3.layoutData, d.row = 1 ∧ d.col = 1 ∧
      ∃ s, sizeMapGet sizesW3 d.size = some s ∧
        bW3.left = cbW3.left + ((1 : ℚ) - 1) * unitWidth cbW3 layoutW3 ∧
        bW3.top = cbW3.top + ((1 : ℚ) - 1) * unitHeight cbW3 layoutW3 ∧
        bW3.width = (s.widthUnits : ℚ) * unitWidth cbW3 layoutW3 ∧
        bW3.height = (s.heightUnits : ℚ) * unitHeight cbW3 layoutW3) ∧
    bW3.width = 80 ∧ unitWidth cbW3 layoutW3 = 40 ∧
    (best_position lblW3.cx lblW3.cy (buildBoundaries cbW3 layoutW3 sizesW3) =
        some (1, 1) ∧
      (∃ b, dictGet (buildBoundaries cbW3 layoutW3 sizesW3) (1, 1) = some b ∧
        withinMargin b lblW3.cx lblW3.cy = true) ∧
      (∃ b, ((1, 1), b) ∈ buildBoundaries cbW3 layoutW3 sizesW3 ∧
        ∀ q ∈ buildBoundaries cbW3 layoutW3 sizesW3,
          centerDist2 lblW3.cx lblW3.cy b ≤ centerDist2 lblW3.cx lblW3.cy q.2)) := by
  have hd : (⟨1, 1, "wide"⟩ : CellDef) ∈ layoutW3.layoutData :=
    List.mem_cons_self _ _
  have hs : sizeMapGet sizesW3 "wide" = some ⟨"wide", 2, 1⟩ := rfl
  have hbb : dictGet (buildBoundaries cbW3 layoutW3 sizesW3) (1, 1) =
      some bW3 := rfl
  have huw : unitWidth cbW3 layoutW3 = 40 := by
    norm_num [unitWidth, cbW3, layoutW3]
  have huh : unitHeight cbW3 layoutW3 = 30 := by
    norm_num [unitHeight, cbW3, layoutW3]
  have hwidth : bW3.width = 80 := by
    have := (mkBoundary_fields cbW3 (unitWidth cbW3 layoutW3)
      (unitHeight cbW3 layoutW3) 1 1 2 1).2.2.1
    rw [show bW3.width = (mkBoundary cbW3 (unitWidth cbW3 layoutW3)
      (unitHeight cbW3 layoutW3) 1 1 2 1).width from rfl, this, huw]
    norm_num
  have hmargin : withinMargin bW3 lblW3.cx lblW3.cy = true := by
    simp only [withinMargin, Bool.and_eq_true, decide_eq_true_eq]
    norm_num [bW3, mkBoundary, huw, huh, unitWidth, unitHeight, cbW3,
      layoutW3, lblW3]
  have hassign : dictGet ([lblW3].foldl
      (assignStep (buildBoundaries cbW3 layoutW3 sizesW3)) []) (1, 1) =
      some lblW3 := by
    have hbest : best_position lblW3.cx lblW3.cy
        (buildBoundaries cbW3 layoutW3 sizesW3) = some (1, 1) := rfl
    have hq : qualifies (buildBoundaries cbW3 layoutW3 sizesW3) (1, 1)
        lblW3 = true := by
      rw [qualifies_true_iff]
      exact ⟨hbest, bW3, hbb, hmargin⟩
    show dictGet (assignStep (buildBoundaries cbW3 layoutW3 sizesW3) [] lblW3)
      (1, 1) = some lblW3
    rw [dictGet_assignStep]
    simp only [hq, if_true]
    rfl
  refine ⟨variable_size_policy.1 cbW3 layoutW3 sizesW3 ⟨1, 1, "wide"⟩ hd
    (by rw [hs]; rfl), ?_, hwidth, huw, ?_⟩
  · obtain ⟨d, hdm, hr, hc, s, hsm, hl, ht, hw, hh⟩ :=
      variable_size_policy.2.1 cbW3 layoutW3 sizesW3 1 1 bW3 hbb
    exact ⟨d, hdm, hr, hc, s, hsm, hl, ht, hw, hh⟩
  · exact variable_size_policy.2.2 (buildBoundaries cbW3 layoutW3 sizesW3)
      [lblW3] (1, 1) lblW3 hassign

/-! ## C1: how the two catalog-request failures differ -/

theorem assign_error (labels : List LabelInfo) (cb : CaseBounds)
    (layout : Layout) (ds : Option (List DrawerSize)) (e : Unit)
    (h : assign_labels_to_grid labels cb layout ds = .error e) :
    ds = none := by
  unfold assign_labels_to_grid at h
  by_cases hl : labels.isEmpty
  · rw [if_pos hl] at h
    cases h
  · rw [if_neg hl] at h
    cases ds with
    | none => rfl
    | some sizes => exact Except.noConfusion h

theorem afterLabels_crashed (layout : Layout) (cb : CaseBounds)
    (labels : List LabelInfo) (ds : Option (List DrawerSize))
    (ocr : ℕ → ℕ → OcrOutcome)
    (h : (afterLabels layout cb labels ds ocr).2 = Outcome.crashed) :
    ds = none ∧ (afterLabels layout cb labels ds ocr).1 =
      mainPreSteps ++ [Step.assignGrid] := by
  unfold afterLabels at h ⊢
  cases ha : assign_labels_to_grid labels cb layout ds with
  | error e =>
    exact ⟨assign_error labels cb layout ds e ha, rfl⟩
  | ok pr =>
    obtain ⟨gl, gi⟩ := pr
    rw [ha] at h
    simp at h

/-- Claim C1 amended: a failed layout-template request aborts the run
with a fatal error before any image step; a failed size-class request
does not — the run can only reach the crashed outcome after
rectification and label detection have already run (the size fetch is
the last step before grid assignment), and the crash is an uncaught
exception inside grid assignment, not the controlled early abort. -/
theorem catalog_failure_handling :
    (∀ env : Env, env.templatesResp = none →
      mainRun env = ([Step.fetchTemplates], Outcome.fatalExit)) ∧
    (∀ env : Env, (mainRun env).2 = Outcome.crashed →
      env.sizesResp = none ∧ Step.rectify ∈ (mainRun env).1 ∧
        Step.findLabels ∈ (mainRun env).1) := by
  constructor
  · intro env h
    unfold mainRun
    rw [h]
  · intro env
    unfold mainRun
    repeat
      first
      | (intro h; exact absurd h (by simp))
      | split
    intro h
    obtain ⟨hds, hsteps⟩ := afterLabels_crashed _ _ _ _ _ h
    refine ⟨hds, ?_, ?_⟩ <;> rw [hsteps] <;> simp [mainPreSteps]

/-- Evaluate floorSqrt at a rational whose floor is a known natural. -/
theorem floorSqrt_eq (x : ℚ) (n w : ℕ) (hx : ⌊x⌋ = (n : ℤ))
    (h1 : w * w ≤ n) (h2 : n < (w + 1) * (w + 1)) : floorSqrt x = w := by
  unfold floorSqrt
  rw [hx, Int.toNat_natCast]
  have ha : w ≤ Nat.sqrt n := Nat.le_sqrt.mpr h1
  have hb : Nat.sqrt n < w + 1 := Nat.sqrt_lt.mpr h2
  omega

/-- The two-cell layout used in the C1 runs. -/
def layoutM : Layout := ⟨"case", 2, 1, [⟨1, 1, "std"⟩, ⟨1, 2, "std"⟩]⟩

/-- A degenerate marker whose four corners coincide at a point. -/
def mkPtMarker (p : Pt) : Marker := ⟨p, p, p, p⟩

/-- A first detection pass finding all four identities, placing the case
corners at (0,0), (300,0), (0,400), (300,400). -/
def passM : List (ℕ × Marker) :=
  [(1, mkPtMarker (0, 0)), (2, mkPtMarker (300, 400)),
   (3, mkPtMarker (300, 0)), (4, mkPtMarker (0, 400))]

/-- A run whose size-class request fails but which finds no candidate
components: everything else succeeds. -/
def envOkC1 : Env :=
  ⟨some [layoutM], false, some "case", true, true, passM, [], [], [], [],
   none, fun _ _ => OcrOutcome.failure⟩

/-- Claim C1 is false as stated: in this run the size-class request
fails (sizesResp = none), yet the pipeline proceeds through
rectification and label detection and then completes normally with a
full results artifact (normal exit, not a fatal abort before image
processing). -/
theorem size_fetch_failure_not_fatal_counterexample :
    envOkC1.sizesResp = none ∧
      Step.rectify ∈ (mainRun envOkC1).1 ∧
      Step.findLabels ∈ (mainRun envOkC1).1 ∧
      (mainRun envOkC1).2 =
        Outcome.completed [⟨1, 1, ""⟩, ⟨1, 2, ""⟩] := by
  refine ⟨rfl, ?_, ?_, rfl⟩ <;> decide

/-- The Corner Set that passM yields. -/
def cornersM : Corners := ⟨(0, 0), (300, 0), (0, 400), (300, 400)⟩

/-- A run with every argument and request failing: the template fetch
returns none. -/
def envTFail : Env :=
  ⟨none, false, none, false, false, [], [], [], [], [],
   none, fun _ _ => OcrOutcome.failure⟩

/-- A component the candidate filter keeps in a 400-pixel-high image. -/
def compW1 : Component := ⟨10, 60, 101, 30, 3001⟩

/-- A run whose size-class request fails while one candidate is found:
grid assignment then raises. -/
def envCrashW : Env :=
  ⟨some [layoutM], false, some "case", true, true, passM, [], [], [],
   [compW1], none, fun _ _ => OcrOutcome.failure⟩

theorem perspSize_cornersM_snd : (perspSize cornersM none).2 = 400 := by
  show floorSqrt (max (sqDist cornersM.bl cornersM.tl)
    (sqDist cornersM.br cornersM.tr)) = 400
  have hmax : max (sqDist cornersM.bl cornersM.tl)
      (sqDist cornersM.br cornersM.tr) = 160000 := by
    norm_num [sqDist, cornersM]
  rw [hmax]
  exact floorSqrt_eq _ 160000 400 (by norm_num) (by norm_num) (by norm_num)

/-- The crash path of main spelled out: when everything up to label
detection succeeds, at least one candidate was found, and the size-class
fetch failed, the run ends crashed after having rectified and scanned
for labels. -/
theorem mainRun_crashes (env : Env) (ts : List Layout) (nm : String)
    (layout : Layout) (corners : Corners)
    (hts : env.templatesResp = some ts)
    (hlf : env.listLayoutsFlag = false)
    (hla : env.layoutArg = some nm)
    (hig : env.imageGiven = true)
    (hfl : find_layout_by_name ts nm = some layout)
    (hil : env.imageLoads = true)
    (hfa : find_aruco_markers env.pass1 env.pass2 env.pass3 env.pass4 =
      some corners)
    (hne : (find_white_labels (perspective_transform corners none).bottom
      env.components).isEmpty = false)
    (hds : env.sizesResp = none) :
    mainRun env = (mainPreSteps ++ [Step.assignGrid], Outcome.crashed) := by
  unfold mainRun
  simp only [hts, hlf, hla, hig, hfl, hil, hfa, hds]
  have hassign : assign_labels_to_grid
      (find_white_labels (perspective_transform corners none).bottom
        env.components)
      (perspective_transform corners none) layout none = Except.error () := by
    unfold assign_labels_to_grid
    simp [hne]
  simp only [afterLabels, hassign]
  simp

theorem mainRun_envCrashW_crashed : (mainRun envCrashW).2 = Outcome.crashed := by
  have hbot : (perspective_transform cornersM none).bottom = 400 := by
    show ((perspSize cornersM none).2 : ℚ) = 400
    rw [perspSize_cornersM_snd]
    norm_num
  have hlbls : find_white_labels (perspective_transform cornersM none).bottom
      [compW1] = [mkLabel compW1] := by
    rw [hbot]
    have hk : keepComponent 400 compW1 = true := by
      simp only [keepComponent, Bool.and_eq_true, decide_eq_true_eq]
      norm_num [compW1]
    simp [find_white_labels, List.filter, hk, List.insertionSort,
      List.orderedInsert]
  have hne : (find_white_labels (perspective_transform cornersM none).bottom
      envCrashW.components).isEmpty = false := by
    show (find_white_labels (perspective_transform cornersM none).bottom
      [compW1]).isEmpty = false
    rw [hlbls]
    rfl
  rw [mainRun_crashes envCrashW [layoutM] "case" layoutM cornersM rfl rfl rfl
    rfl rfl rfl rfl hne rfl]

/-- Concrete runs of catalog_failure_handling: a failed template fetch
aborts with only the fetch step performed, and a crashed run (size fetch
failed, one candidate found) had already rectified and scanned for
labels. -/
theorem catalog_failure_handling_witness :
    mainRun envTFail = ([Step.fetchTemplates], Outcome.fatalExit) ∧
    (envCrashW.sizesResp = none ∧ Step.rectify ∈ (mainRun envCrashW).1 ∧
      Step.findLabels ∈ (mainRun envCrashW).1) :=
  ⟨catalog_failure_handling.1 envTFail rfl,
   catalog_failure_handling.2 envCrashW mainRun_envCrashW_crashed⟩

end DrawerOCR


